import Mathlib

/-!
Shallow embedding of the timeline-composition logic of the Reels-Automation
repository (src/background.py, src/reelCreator.py, src/reel_creator.py),
together with theorems settling the specification's claims about it.

Durations and timestamps are modelled as exact rationals (`ℚ`); pixel sizes
and word counts as naturals.  Python text is modelled as `List Char`; fallible
code returns `Except`/`Option` mirroring raise/try-except.
-/

namespace ReelsAutomation

/-! ## Python text primitives (str.split / str.strip / str.join) -/

/-- Whitespace test matching Python `str.isspace` on the ASCII whitespace
characters relevant to `str.split()` and `str.strip()`. -/
def isSpace (c : Char) : Bool :=
  c = ' ' || c = '\t' || c = '\n' || c = '\r' || c = Char.ofNat 11 || c = Char.ofNat 12

/-- Worker for Python `str.split()` with no separator argument: split on runs
of whitespace, discarding empty words.  `acc` holds the current in-progress
word in reverse. -/
def splitAux : List Char → List Char → List (List Char)
  | [], acc => if acc = [] then [] else [acc.reverse]
  | c :: cs, acc =>
      if isSpace c then
        if acc = [] then splitAux cs [] else acc.reverse :: splitAux cs []
      else splitAux cs (c :: acc)

/-- Python `text.split()` (no separator): the list of maximal whitespace-free
words of `cs`. -/
def splitWords (cs : List Char) : List (List Char) := splitAux cs []

/-- Python `str.strip()`: remove leading and trailing whitespace. -/
def pyStrip (cs : List Char) : List Char :=
  (((cs.dropWhile isSpace).reverse).dropWhile isSpace).reverse

/-- Python `' '.join(words)`. -/
def joinWords (ws : List (List Char)) : List Char :=
  List.intercalate [' '] ws

/-- The chunking loop shared by `ReelTextRenderer.create_text_clips`
(src/reelCreator.py) and `InstagramReelCreator.create_text_clips_pil`
(src/reel_creator.py):
`chunks = [words[i:i + chunk_size] for i in range(0, len(words), chunk_size)]`.
In the source `chunk_size` is the constant `8`; the `0` case below is a Lean
totality artifact and is never used (Python `range` would reject step 0). -/
def chunksOf (k : ℕ) (l : List α) : List (List α) :=
  match k, l with
  | _, [] => []
  | 0, _ :: _ => []
  | k' + 1, w :: ws => (w :: ws).take (k' + 1) :: chunksOf (k' + 1) ((w :: ws).drop (k' + 1))
termination_by l.length
decreasing_by simp; omega

/-- The word-level chunks produced by `create_text_clips` /
`create_text_clips_pil` for a given text: words are split on whitespace and
grouped 8 per chunk. -/
def create_text_clips_chunkWords (text : List Char) : List (List (List Char)) :=
  chunksOf 8 (splitWords text)

/-- The on-screen chunk strings (`' '.join(words[i:i+8])`) of
`create_text_clips` / `create_text_clips_pil`. -/
def create_text_clips_chunks (text : List Char) : List (List Char) :=
  (create_text_clips_chunkWords text).map joinWords

/-- `full_text.replace('\n', ' ')` from `InstagramReelCreator.create_reel`
(src/reel_creator.py). -/
def replaceNewlines (cs : List Char) : List Char :=
  cs.map (fun c => if c = '\n' then ' ' else c)

/-- Python `str.replace('  ', ' ')`: one left-to-right pass replacing
non-overlapping double spaces by single spaces, as in
`InstagramReelCreator.create_reel` (src/reel_creator.py). -/
def collapseDoubleSpace : List Char → List Char
  | [] => []
  | [c] => [c]
  | c1 :: c2 :: cs =>
      if c1 = ' ' && c2 = ' ' then ' ' :: collapseDoubleSpace cs
      else c1 :: collapseDoubleSpace (c2 :: cs)

/-- The text clean-up `full_text.replace('\n', ' ').replace('  ', ' ')` of
`create_reel` (src/reel_creator.py). -/
def pyClean (cs : List Char) : List Char :=
  collapseDoubleSpace (replaceNewlines cs)

/-! ## Duration resolution -/

/-- Duration resolution of `InstagramReelCreator.create_single_reel`
(src/reelCreator.py, lines 361-373): `min(audio_clip.duration, max_duration)`
when narration audio loaded, otherwise `min(len(words) / 2.5, max_duration)`. -/
def target_duration_kokoro (audioDur : Option ℚ) (wordCount : ℕ) (maxDur : ℚ) : ℚ :=
  match audioDur with
  | some a => min a maxDur
  | none => min ((wordCount : ℚ) / (5 / 2)) maxDur

/-- Duration resolution of `InstagramReelCreator.create_reel`
(src/reel_creator.py, lines 318-325): the measured audio duration is used
unchanged when present; otherwise `(word_count / 150) * 60` clamped by
`max(30, min(·, 90))`. -/
def target_duration_estimated (audioDur : Option ℚ) (wordCount : ℕ) : ℚ :=
  match audioDur with
  | some a => a
  | none => max 30 (min ((wordCount : ℚ) / 150 * 60) 90)

/-! ## Reel composition bodies and their exception handling -/

/-- The text/duration decisions a composed reel is built from. -/
structure ReelPlan where
  fullText : List Char
  targetDuration : ℚ
deriving DecidableEq

/-- The body of `InstagramReelCreator.create_single_reel` (src/reelCreator.py)
up to the text and duration decisions — the code inside its `try` block, with
Python `raise` modelled as `Except.error`: combine `title + ". " + content`,
strip it, reject empty text, truncate to 200 words (appending `'...'`), and
resolve the target duration. -/
def create_single_reel_body (title content : List Char) (audioDur : Option ℚ)
    (maxDur : ℚ) : Except String ReelPlan :=
  if pyStrip (title ++ ('.' :: ' ' :: content)) = []
      ∨ pyStrip (title ++ ('.' :: ' ' :: content)) = ['.'] then
    Except.error "No valid text content found"
  else
    Except.ok
      { fullText :=
          if 200 < (splitWords (pyStrip (title ++ ('.' :: ' ' :: content)))).length then
            joinWords ((splitWords (pyStrip (title ++ ('.' :: ' ' :: content)))).take 200)
              ++ ['.', '.', '.']
          else pyStrip (title ++ ('.' :: ' ' :: content))
        targetDuration :=
          target_duration_kokoro audioDur
            (splitWords (pyStrip (title ++ ('.' :: ' ' :: content)))).length maxDur }

/-- `InstagramReelCreator.create_single_reel` (src/reelCreator.py): the whole
body runs inside `try: ... except Exception: ...; return None`, so every
exception is caught and turned into a `None` return. -/
def create_single_reel (title content : List Char) (audioDur : Option ℚ)
    (maxDur : ℚ) : Option ReelPlan :=
  match create_single_reel_body title content audioDur maxDur with
  | Except.ok p => some p
  | Except.error _ => none

/-- The body of `InstagramReelCreator.create_reel` (src/reel_creator.py) up to
the text and duration decisions: combine `title + ". " + content`, strip it,
reject the (unreachable) empty string, clean newlines/double spaces, truncate
to 150 words (appending `'...'`), and resolve the duration from the word count
of the truncated text. -/
def create_reel_body (title content : List Char) (audioDur : Option ℚ) :
    Except String ReelPlan :=
  if pyStrip (title ++ ('.' :: ' ' :: content)) = [] then
    Except.error "No text content found in content item"
  else
    Except.ok
      { fullText :=
          if 150 < (splitWords (pyClean (pyStrip (title ++ ('.' :: ' ' :: content))))).length then
            joinWords
              ((splitWords (pyClean (pyStrip (title ++ ('.' :: ' ' :: content))))).take 150)
              ++ ['.', '.', '.']
          else pyClean (pyStrip (title ++ ('.' :: ' ' :: content)))
        targetDuration :=
          target_duration_estimated audioDur
            (splitWords
              (if 150 < (splitWords (pyClean (pyStrip (title ++ ('.' :: ' ' :: content))))).length then
                joinWords
                  ((splitWords (pyClean (pyStrip (title ++ ('.' :: ' ' :: content))))).take 150)
                  ++ ['.', '.', '.']
              else pyClean (pyStrip (title ++ ('.' :: ' ' :: content))))).length }

/-- `InstagramReelCreator.create_reel` (src/reel_creator.py): the body runs
inside `try: ... except Exception: ...; return None, 0`, so every exception is
caught and turned into the pair `(None, 0)`. -/
def create_reel (title content : List Char) (audioDur : Option ℚ) :
    Option ReelPlan × ℚ :=
  match create_reel_body title content audioDur with
  | Except.ok p => (some p, p.targetDuration)
  | Except.error _ => (none, 0)

/-! ## Aspect cropping (src/background.py crop_to_vertical) -/

/-- Instagram target width (`self.target_width`, src/background.py). -/
def target_width : ℕ := 1080

/-- Instagram target height (`self.target_height`, src/background.py). -/
def target_height : ℕ := 1920

/-- The crop window and output dimensions produced by
`InstagramBGCreator.crop_to_vertical`. -/
structure CropWindow where
  x1 : ℕ
  x2 : ℕ
  y1 : ℕ
  y2 : ℕ
  outW : ℕ
  outH : ℕ
deriving DecidableEq

/-- `InstagramBGCreator.crop_to_vertical` (src/background.py, lines 37-62) on a
clip of size `w × h`.  `w / h > 9/16` is the exact rational comparison
`16 * w > 9 * h`; Python `int(...)` of the nonnegative products is natural
floor division, and `max(0, ...)` coincides with truncated natural
subtraction.  The result is always resized to `(target_width, target_height)`. -/
def crop_to_vertical (w h : ℕ) : CropWindow :=
  if 9 * h < 16 * w then
    { x1 := w / 2 - (9 * h / 16) / 2
      x2 := min w ((w / 2 - (9 * h / 16) / 2) + 9 * h / 16)
      y1 := 0
      y2 := h
      outW := target_width
      outH := target_height }
  else
    { x1 := 0
      x2 := w
      y1 := h / 2 - (16 * w / 9) / 2
      y2 := min h ((h / 2 - (16 * w / 9) / 2) + 16 * w / 9)
      outW := target_width
      outH := target_height }

/-! ## Transitions and background layout (src/background.py) -/

/-- Transition styles accepted by `create_smooth_transition`. -/
inductive TransitionType
  | crossfade
  | slide
  | zoom
deriving DecidableEq

/-- A processed background clip as the transition code sees it: its duration
after trimming plus the fade windows applied to it (`fadein`/`fadeout`
durations).  `zoomed` records whether the zoom resize effect was attached. -/
structure BClip where
  duration : ℚ
  fadeIn : ℚ
  fadeOut : ℚ
  zoomed : Bool
deriving DecidableEq

/-- `InstagramBGCreator.create_smooth_transition` (src/background.py, lines
101-122): sets the fade windows of the two clips — the requested
`transition_duration` for crossfade and zoom, half of it for slide.  It reads
neither clip's remaining length and performs no clamping. -/
def create_smooth_transition (c1 c2 : BClip) (d : ℚ) (ty : TransitionType) :
    BClip × BClip :=
  match ty with
  | TransitionType.crossfade => ({ c1 with fadeOut := d }, { c2 with fadeIn := d })
  | TransitionType.slide =>
      ({ c1 with fadeOut := d * (1 / 2) }, { c2 with fadeIn := d * (1 / 2) })
  | TransitionType.zoom =>
      ({ c1 with fadeOut := d, zoomed := true }, { c2 with fadeIn := d })

/-- `segment_duration = duration / num_clips + transition_duration`
(src/background.py, line 184). -/
def segment_duration (duration transition : ℚ) (numClips : ℕ) : ℚ :=
  duration / (numClips : ℚ) + transition

/-- The layer start times assigned by
`concatenate_videoclips(final_clips, method="compose")`
(src/background.py, line 228): clip `i` starts at the sum of the durations of
clips `0..i-1`; no padding and no overlap is introduced. -/
def layerStarts (durs : List ℚ) : List ℚ :=
  (List.range durs.length).map (fun i => (durs.take i).sum)

/-- The signed time overlap between consecutive placed clips `i` and `i+1` in
the concatenated background sequence: `(start_i + dur_i) - start_{i+1}`. -/
def consecOverlap (durs : List ℚ) (i : ℕ) : ℚ :=
  ((durs.take i).sum + durs.getD i 0) - (durs.take (i + 1)).sum

/-- Time `t` lies inside the visible window of placed background clip `i`. -/
def coveredBy (durs : List ℚ) (i : ℕ) (t : ℚ) : Prop :=
  (durs.take i).sum ≤ t ∧ t < (durs.take i).sum + durs.getD i 0

/-! ## Randomized placement decisions (src/background.py, src/reelCreator.py) -/

/-- The stream of pseudo-random draws consumed by the composition code.  In
the source the draws come from Python's global Mersenne–Twister generator,
whose successive outputs are a deterministic function of the seed;
`sampleDraw i` drives the `i`-th source selection of `random.sample` and
`uniformDraw i` the `i`-th `random.uniform(0, m)` draw, as a fraction of `m`. -/
structure RandomStream where
  sampleDraw : ℕ → ℕ
  uniformDraw : ℕ → ℚ

/-- The trim window chosen by `InstagramBGCreator.process_clip`
(src/background.py, lines 124-139) when no `start_time` is given:
`start = uniform(0, max(0, native - segment))` if that bound is positive else
`0`, and `end = min(start + segment, native)`. -/
def process_clip_window (frac native seg : ℚ) : ℚ × ℚ :=
  let maxStart := max 0 (native - seg)
  let start := if 0 < maxStart then frac * maxStart else 0
  (start, min (start + seg) native)

/-- The clip count of `InstagramBGCreator.create_background_video`
(src/background.py, lines 175-180): `max(3, int(duration / 10))` when not
supplied, then `min(·, len(video_files))`. -/
def bg_num_clips (numFiles : ℕ) (duration : ℚ) (nArg : Option ℕ) : ℕ :=
  min (nArg.getD (max 3 (⌊duration / 10⌋).toNat)) numFiles

/-- The placement decisions of `InstagramBGCreator.create_background_video`
(src/background.py, lines 180-199) with the RNG draws made explicit: for each
of the `num_clips` slots, the selected source index and the trim window chosen
by `process_clip`. -/
def create_background_video_placements (rng : RandomStream) (videoDurs : List ℚ)
    (duration transition : ℚ) (nArg : Option ℕ) : List (ℕ × ℚ × ℚ) :=
  (List.range (bg_num_clips videoDurs.length duration nArg)).map (fun i =>
    let j := rng.sampleDraw i % videoDurs.length
    (j, process_clip_window (rng.uniformDraw i) (videoDurs.getD j 0)
          (segment_duration duration transition
            (bg_num_clips videoDurs.length duration nArg))))

/-- The background segment chosen by `InstagramReelCreator.create_single_reel`
(src/reelCreator.py, lines 377-384): a random subwindow when the background is
longer than the target, otherwise a loop starting at 0. -/
def reel_bg_window (frac bgDur targetDur : ℚ) : ℚ × ℚ :=
  if targetDur < bgDur then
    (frac * max 0 (bgDur - targetDur), frac * max 0 (bgDur - targetDur) + targetDur)
  else (0, targetDur)

/-! ## Text-fragment timing (create_text_clips / create_text_clips_pil) -/

/-- The `(start_time, chunk_duration)` schedule assigned to the text chunks by
`create_text_clips` (src/reelCreator.py, lines 203-219) and
`create_text_clips_pil` (src/reel_creator.py, lines 216-232):
`chunk_duration = duration / len(chunks)` and `start_time = i * chunk_duration`,
each clip lasting `chunk_duration` from its start. -/
def textClipTimes (text : List Char) (duration : ℚ) : List (ℚ × ℚ) :=
  (List.range (create_text_clips_chunks text).length).map (fun (i : ℕ) =>
    ((i : ℚ) * (duration / ((create_text_clips_chunks text).length : ℚ)),
      duration / ((create_text_clips_chunks text).length : ℚ)))

/-! ## Helper lemmas -/

theorem chunksOf_nil (k : ℕ) : chunksOf k ([] : List α) = [] := by
  rw [chunksOf]

theorem chunksOf_cons (k : ℕ) (w : α) (ws : List α) :
    chunksOf (k + 1) (w :: ws) =
      (w :: ws.take k) :: chunksOf (k + 1) (ws.drop k) := by
  rw [chunksOf]
  simp

theorem chunksOf_eq_nil_iff (k : ℕ) (l : List α) :
    chunksOf (k + 1) l = [] ↔ l = [] := by
  cases l with
  | nil => simp [chunksOf_nil]
  | cons w ws => simp [chunksOf_cons]

theorem chunksOf_join_aux (k : ℕ) :
    ∀ n, ∀ ws : List α, ws.length ≤ n → (chunksOf (k + 1) ws).flatten = ws := by
  intro n
  induction n with
  | zero =>
      intro ws h
      have hws : ws = [] := List.length_eq_zero.mp (Nat.le_zero.mp h)
      subst hws
      simp [chunksOf_nil]
  | succ n ih =>
      intro ws h
      cases ws with
      | nil => simp [chunksOf_nil]
      | cons w ws' =>
          rw [chunksOf_cons]
          have hlen : (ws'.drop k).length ≤ n := by
            simp only [List.length_drop]
            simp only [List.length_cons] at h
            omega
          simp only [List.flatten_cons, ih (ws'.drop k) hlen, List.cons_append,
            List.take_append_drop]

theorem chunksOf_join (k : ℕ) (ws : List α) : (chunksOf (k + 1) ws).flatten = ws :=
  chunksOf_join_aux k ws.length ws le_rfl

theorem chunksOf_mem_length_aux (k : ℕ) :
    ∀ n, ∀ ws : List α, ws.length ≤ n →
      ∀ c ∈ chunksOf (k + 1) ws, 1 ≤ c.length ∧ c.length ≤ k + 1 := by
  intro n
  induction n with
  | zero =>
      intro ws h c hc
      have hws : ws = [] := List.length_eq_zero.mp (Nat.le_zero.mp h)
      subst hws
      simp [chunksOf_nil] at hc
  | succ n ih =>
      intro ws h c hc
      cases ws with
      | nil => simp [chunksOf_nil] at hc
      | cons w ws' =>
          rw [chunksOf_cons] at hc
          rcases List.mem_cons.mp hc with hc | hc
          · subst hc
            simp only [List.length_cons, List.length_take]
            omega
          · have hlen : (ws'.drop k).length ≤ n := by
              simp only [List.length_drop]
              simp only [List.length_cons] at h
              omega
            exact ih (ws'.drop k) hlen c hc

theorem chunksOf_mem_length (k : ℕ) (ws : List α) :
    ∀ c ∈ chunksOf (k + 1) ws, 1 ≤ c.length ∧ c.length ≤ k + 1 :=
  chunksOf_mem_length_aux k ws.length ws le_rfl

theorem chunksOf_getD_length_aux (k : ℕ) :
    ∀ n, ∀ ws : List α, ws.length ≤ n →
      ∀ i, i + 1 < (chunksOf (k + 1) ws).length →
        ((chunksOf (k + 1) ws).getD i []).length = k + 1 := by
  intro n
  induction n with
  | zero =>
      intro ws h i hi
      have hws : ws = [] := List.length_eq_zero.mp (Nat.le_zero.mp h)
      subst hws
      simp [chunksOf_nil] at hi
  | succ n ih =>
      intro ws h i hi
      cases ws with
      | nil => simp [chunksOf_nil] at hi
      | cons w ws' =>
          rw [chunksOf_cons] at hi ⊢
          have hlen : (ws'.drop k).length ≤ n := by
            simp only [List.length_drop]
            simp only [List.length_cons] at h
            omega
          cases i with
          | zero =>
              have hrest : chunksOf (k + 1) (ws'.drop k) ≠ [] := by
                simp only [List.length_cons] at hi
                intro hnil
                rw [hnil] at hi
                simp at hi
              have hdrop : ws'.drop k ≠ [] :=
                fun hd => hrest ((chunksOf_eq_nil_iff k _).mpr hd)
              have hklen : k < ws'.length := by
                by_contra hk
                push_neg at hk
                exact hdrop (List.drop_eq_nil_of_le hk)
              simp only [List.getD_cons_zero, List.length_cons, List.length_take]
              omega
          | succ i =>
              simp only [List.getD_cons_succ]
              apply ih (ws'.drop k) hlen i
              simp only [List.length_cons] at hi
              omega

theorem chunksOf_getD_length (k : ℕ) (ws : List α) :
    ∀ i, i + 1 < (chunksOf (k + 1) ws).length →
      ((chunksOf (k + 1) ws).getD i []).length = k + 1 :=
  chunksOf_getD_length_aux k ws.length ws le_rfl

theorem splitAux_ne_nil : ∀ (cs : List Char) (acc : List Char), acc ≠ [] →
    splitAux cs acc ≠ [] := by
  intro cs
  induction cs with
  | nil =>
      intro acc hacc
      simp [splitAux, hacc]
  | cons c cs ih =>
      intro acc hacc
      simp only [splitAux]
      by_cases hc : isSpace c
      · simp only [hc, if_true, hacc, if_neg hacc]
        simp
      · simp only [hc, if_false]
        exact ih (c :: acc) (by simp)

theorem splitAux_words : ∀ (cs : List Char) (acc : List Char),
    (∀ ch ∈ acc, isSpace ch = false) →
    ∀ w ∈ splitAux cs acc, w ≠ [] ∧ ∀ ch ∈ w, isSpace ch = false := by
  intro cs
  induction cs with
  | nil =>
      intro acc hacc w hw
      simp only [splitAux] at hw
      by_cases ha : acc = []
      · simp [ha] at hw
      · simp only [ha, if_false, List.mem_singleton] at hw
        subst hw
        refine ⟨by simpa using ha, ?_⟩
        intro ch hch
        exact hacc ch (List.mem_reverse.mp hch)
  | cons c cs ih =>
      intro acc hacc w hw
      simp only [splitAux] at hw
      by_cases hc : isSpace c
      · simp only [hc, if_true] at hw
        by_cases ha : acc = []
        · simp only [ha, if_true] at hw
          exact ih [] (by simp) w hw
        · simp only [ha, if_false, List.mem_cons] at hw
          rcases hw with hw | hw
          · subst hw
            refine ⟨by simpa using ha, ?_⟩
            intro ch hch
            exact hacc ch (List.mem_reverse.mp hch)
          · exact ih [] (by simp) w hw
      · simp only [hc, if_false] at hw
        refine ih (c :: acc) ?_ w hw
        intro ch hch
        rcases List.mem_cons.mp hch with h | h
        · subst h
          simpa using hc
        · exact hacc ch h

theorem splitWords_words (cs : List Char) :
    ∀ w ∈ splitWords cs, w ≠ [] ∧ ∀ ch ∈ w, isSpace ch = false :=
  splitAux_words cs [] (by simp)

theorem pyStrip_first_not_space (cs : List Char) (c : Char) (rest : List Char)
    (h : pyStrip cs = c :: rest) : isSpace c = false := by
  have hsuf : ((cs.dropWhile isSpace).reverse.dropWhile isSpace)
      <:+ (cs.dropWhile isSpace).reverse := List.dropWhile_suffix _
  obtain ⟨t, ht⟩ := hsuf
  have hrev := congrArg List.reverse ht
  rw [List.reverse_append, List.reverse_reverse] at hrev
  have hA : cs.dropWhile isSpace = (c :: rest) ++ t.reverse := by
    rw [← hrev]
    unfold pyStrip at h
    rw [h]
  have h2 := List.head?_dropWhile_not isSpace cs
  rw [hA] at h2
  simpa using h2

theorem splitWords_ne_nil_of_strip (cs : List Char) (h : pyStrip cs ≠ []) :
    splitWords (pyStrip cs) ≠ [] := by
  rcases hps : pyStrip cs with _ | ⟨c, rest⟩
  · exact absurd hps h
  · have hc := pyStrip_first_not_space cs c rest hps
    simp only [splitWords, splitAux, hc]
    simp only [Bool.false_eq_true, if_false]
    exact splitAux_ne_nil rest [c] (by simp)

theorem consecOverlap_eq_zero (durs : List ℚ) (i : ℕ) :
    consecOverlap durs i = 0 := by
  unfold consecOverlap
  by_cases hi : i < durs.length
  · rw [List.sum_take_succ _ _ hi, List.getD_eq_getElem _ _ hi]
    simp
  · push_neg at hi
    rw [List.take_of_length_le hi, List.take_of_length_le (by omega),
      List.getD_eq_default _ _ hi]
    simp

theorem layerStarts_getD (durs : List ℚ) (i : ℕ) (hi : i < durs.length) :
    (layerStarts durs).getD i 0 = (durs.take i).sum := by
  unfold layerStarts
  rw [List.getD_eq_getElem _ _ (by simpa using hi)]
  simp

theorem coverage_aux : ∀ (durs : List ℚ), (∀ d ∈ durs, 0 ≤ d) →
    ∀ t : ℚ, 0 ≤ t → t < durs.sum → ∃ i, i < durs.length ∧ coveredBy durs i t := by
  intro durs
  induction durs with
  | nil =>
      intro _ t h0 ht
      simp only [List.sum_nil] at ht
      exact absurd (lt_of_le_of_lt h0 ht) (lt_irrefl 0)
  | cons d ds ih =>
      intro hpos t h0 ht
      by_cases hc : t < d
      · refine ⟨0, by simp, ?_⟩
        unfold coveredBy
        simp only [List.take_zero, List.sum_nil, List.getD_cons_zero]
        exact ⟨h0, by linarith⟩
      · push_neg at hc
        have hds : ∀ x ∈ ds, 0 ≤ x := fun x hx => hpos x (List.mem_cons_of_mem _ hx)
        have hsum : t - d < ds.sum := by
          simp only [List.sum_cons] at ht
          linarith
        obtain ⟨i, hi, hcov⟩ := ih hds (t - d) (by linarith) hsum
        refine ⟨i + 1, by simpa using hi, ?_⟩
        unfold coveredBy at hcov ⊢
        simp only [List.take_succ_cons, List.sum_cons, List.getD_cons_succ]
        exact ⟨by linarith [hcov.1], by linarith [hcov.2]⟩

/-! ## Claim theorems -/

/-- C9: for every asset with positive width and height, `crop_to_vertical`
selects a centered window — a horizontal crop `int(h * 9/16)` pixels wide when
`w/h` exceeds `9/16`, otherwise a vertical crop `int(w * 16/9)` pixels tall,
the two margins differing by at most one pixel — and the resampled output's
dimensions exactly equal the 1080 × 1920 target. -/
theorem c9_crop_centered (w h : ℕ) (hw : 0 < w) (hh : 0 < h) :
    (crop_to_vertical w h).outW = 1080 ∧ (crop_to_vertical w h).outH = 1920 ∧
    (9 * h < 16 * w →
      (crop_to_vertical w h).x2 - (crop_to_vertical w h).x1 = 9 * h / 16 ∧
      (crop_to_vertical w h).x1 + (9 * h / 16) = (crop_to_vertical w h).x2 ∧
      (crop_to_vertical w h).y1 = 0 ∧ (crop_to_vertical w h).y2 = h ∧
      w - (crop_to_vertical w h).x2 ≤ (crop_to_vertical w h).x1 + 1 ∧
      (crop_to_vertical w h).x1 ≤ (w - (crop_to_vertical w h).x2) + 1) ∧
    (¬ 9 * h < 16 * w →
      (crop_to_vertical w h).y2 - (crop_to_vertical w h).y1 = 16 * w / 9 ∧
      (crop_to_vertical w h).y1 + (16 * w / 9) = (crop_to_vertical w h).y2 ∧
      (crop_to_vertical w h).x1 = 0 ∧ (crop_to_vertical w h).x2 = w ∧
      h - (crop_to_vertical w h).y2 ≤ (crop_to_vertical w h).y1 + 1 ∧
      (crop_to_vertical w h).y1 ≤ (h - (crop_to_vertical w h).y2) + 1) := by
  unfold crop_to_vertical target_width target_height
  by_cases hcase : 9 * h < 16 * w
  · rw [if_pos hcase]
    refine ⟨rfl, rfl, fun _ => ?_, fun hc => absurd hcase hc⟩
    dsimp only
    omega
  · rw [if_neg hcase]
    refine ⟨rfl, rfl, fun hc => absurd hc hcase, fun _ => ?_⟩
    dsimp only
    push_neg at hcase
    omega

/-- Witness for C9 at a concrete 1000 × 1000 asset (landscape-relative
branch, since 9·1000 < 16·1000). -/
theorem c9_crop_centered_witness :
    (crop_to_vertical 1000 1000).outW = 1080 ∧ (crop_to_vertical 1000 1000).outH = 1920 :=
  ⟨(c9_crop_centered 1000 1000 (by norm_num) (by norm_num)).1,
    (c9_crop_centered 1000 1000 (by norm_num) (by norm_num)).2.1⟩

/-- C2 counterexample: in src/reel_creator.py a measured audio duration of
100 s with the 90 s hard cap resolves to 100, not `min(100, 90) = 90` — the
measured-audio branch ignores the cap, so the claimed precedence rule fails. -/
theorem c2_counterexample :
    target_duration_estimated (some 100) 50 = 100 ∧
    min (100 : ℚ) 90 = 90 ∧ (100 : ℚ) ≠ 90 := by
  refine ⟨rfl, by norm_num, by norm_num⟩

/-- C2 amended: src/reelCreator.py follows the claimed precedence rule with
rate 2.5 words/s — `min(audio, cap)` with measured audio, otherwise exactly
`min(wordCount/2.5, cap)` (the cap wins when the estimate reaches it, the
estimate wins otherwise; 238 words ≈ 95.2 s against the 90 s cap resolve to
90).  src/reel_creator.py deviates: a measured audio duration is used as-is
without the cap, and the no-audio resolution is exactly
`max(30, min((wordCount/150)·60, 90))` — the estimate clamped into `[30, 90]`
rather than only capped: the 30 s floor wins for short texts, the raw estimate
inside the range, the 90 s cap above it (238 words also resolve to 90 there). -/
theorem c2_amended :
    (∀ a : ℚ, ∀ wc : ℕ, ∀ cap : ℚ, target_duration_kokoro (some a) wc cap = min a cap) ∧
    (∀ wc : ℕ, ∀ cap : ℚ,
        target_duration_kokoro none wc cap = min ((wc : ℚ) / (5 / 2)) cap) ∧
    (∀ wc : ℕ, ∀ cap : ℚ, cap ≤ (wc : ℚ) / (5 / 2) →
        target_duration_kokoro none wc cap = cap) ∧
    (∀ wc : ℕ, ∀ cap : ℚ, (wc : ℚ) / (5 / 2) ≤ cap →
        target_duration_kokoro none wc cap = (wc : ℚ) / (5 / 2)) ∧
    target_duration_kokoro none 238 90 = 90 ∧
    (∀ a : ℚ, ∀ wc : ℕ, target_duration_estimated (some a) wc = a) ∧
    (∀ wc : ℕ, target_duration_estimated none wc
        = max 30 (min ((wc : ℚ) / 150 * 60) 90)) ∧
    (∀ wc : ℕ, (wc : ℚ) / 150 * 60 ≤ 30 → target_duration_estimated none wc = 30) ∧
    (∀ wc : ℕ, 30 ≤ (wc : ℚ) / 150 * 60 → (wc : ℚ) / 150 * 60 ≤ 90 →
        target_duration_estimated none wc = (wc : ℚ) / 150 * 60) ∧
    (∀ wc : ℕ, 90 ≤ (wc : ℚ) / 150 * 60 → target_duration_estimated none wc = 90) ∧
    target_duration_estimated none 238 = 90 := by
  refine ⟨fun a wc cap => rfl, fun wc cap => rfl, ?_, ?_, ?_, fun a wc => rfl,
    fun wc => rfl, ?_, ?_, ?_, ?_⟩
  · intro wc cap hcap
    unfold target_duration_kokoro
    exact min_eq_right hcap
  · intro wc cap hest
    unfold target_duration_kokoro
    exact min_eq_left hest
  · unfold target_duration_kokoro
    rw [min_eq_right (by norm_num)]
  · intro wc hfloor
    unfold target_duration_estimated
    rw [min_eq_left (le_trans hfloor (by norm_num)), max_eq_left hfloor]
  · intro wc h30 h90
    unfold target_duration_estimated
    rw [min_eq_left h90, max_eq_right h30]
  · intro wc hwc
    unfold target_duration_estimated
    rw [min_eq_right hwc, max_eq_right (by norm_num)]
  · unfold target_duration_estimated
    rw [min_eq_right (by norm_num), max_eq_right (by norm_num)]

/-- Witness for C2 amended: 250 words at 2.5 words/s estimate 100 s, which a
100 s cap binds exactly. -/
theorem c2_amended_witness : target_duration_kokoro none 250 100 = 100 :=
  c2_amended.2.2.1 250 100 (by norm_num)

/-- C5 counterexample: two clips of 0.5 s each with a requested crossfade of
1 s — `create_smooth_transition` keeps the 1 s fade window even though it
exceeds both clips' remaining length (no clamp to `min(0.5, 0.5) = 0.5`), and
the overlap actually realized by the concatenated layout is 0, not the clamped
0.5. -/
theorem c5_counterexample :
    (create_smooth_transition ⟨1/2, 0, 0, false⟩ ⟨1/2, 0, 0, false⟩ 1
        TransitionType.crossfade).1.fadeOut = 1 ∧
    min ((1 : ℚ)/2) (1/2) = 1/2 ∧ (1 : ℚ) ≠ 1/2 ∧
    consecOverlap [1/2, 1/2] 0 = 0 ∧ ((0 : ℚ) ≠ 1/2) := by
  refine ⟨rfl, by norm_num, by norm_num, consecOverlap_eq_zero _ _, by norm_num⟩

/-- C5 amended: `create_smooth_transition` performs no clamping — the fade
windows equal exactly the requested duration for crossfade and zoom and half
of it for slide, regardless of either clip's remaining length — and in the
concatenated background layout every pair of adjacent clips overlaps by
exactly 0 seconds, which is never negative. -/
theorem c5_amended (a b : BClip) (d : ℚ) :
    ((create_smooth_transition a b d TransitionType.crossfade).1.fadeOut = d ∧
      (create_smooth_transition a b d TransitionType.crossfade).2.fadeIn = d) ∧
    ((create_smooth_transition a b d TransitionType.slide).1.fadeOut = d * (1/2) ∧
      (create_smooth_transition a b d TransitionType.slide).2.fadeIn = d * (1/2)) ∧
    ((create_smooth_transition a b d TransitionType.zoom).1.fadeOut = d ∧
      (create_smooth_transition a b d TransitionType.zoom).2.fadeIn = d) ∧
    ((create_smooth_transition a b d TransitionType.crossfade).1.duration = a.duration ∧
      (create_smooth_transition a b d TransitionType.crossfade).2.duration = b.duration) ∧
    (∀ durs : List ℚ, ∀ i : ℕ, consecOverlap durs i = 0 ∧ 0 ≤ consecOverlap durs i) := by
  refine ⟨⟨rfl, rfl⟩, ⟨rfl, rfl⟩, ⟨rfl, rfl⟩, ⟨rfl, rfl⟩, fun durs i => ?_⟩
  rw [consecOverlap_eq_zero durs i]
  exact ⟨rfl, le_refl 0⟩

/-- C7 counterexample: with empty title and body, the composition body of
`create_single_reel` (src/reelCreator.py) raises the text-validation error,
yet the composer's blanket `except` converts it into the non-error return
value `None` instead of letting it propagate. -/
theorem c7_counterexample :
    create_single_reel_body [] [] none 90 = Except.error "No valid text content found" ∧
    create_single_reel [] [] none 90 = none := by
  exact ⟨rfl, rfl⟩

/-- C7 amended: every exception raised inside the composition body is caught
by the composer itself — `create_single_reel` (src/reelCreator.py) maps any
in-body error to the plain return value `None`, and `create_reel`
(src/reel_creator.py) maps any in-body error to `(None, 0)`; errors never
propagate out of a composition attempt. -/
theorem c7_amended (title content : List Char) (audioDur : Option ℚ) (maxDur : ℚ) :
    (∀ e, create_single_reel_body title content audioDur maxDur = Except.error e →
        create_single_reel title content audioDur maxDur = none) ∧
    (∀ p, create_single_reel_body title content audioDur maxDur = Except.ok p →
        create_single_reel title content audioDur maxDur = some p) ∧
    (∀ e, create_reel_body title content audioDur = Except.error e →
        create_reel title content audioDur = (none, 0)) ∧
    (∀ p, create_reel_body title content audioDur = Except.ok p →
        create_reel title content audioDur = (some p, p.targetDuration)) := by
  refine ⟨?_, ?_, ?_, ?_⟩ <;> intro x hx <;>
    simp [create_single_reel, create_reel, hx]

/-- Witness for C7 amended at the empty content item, whose in-body error is
caught and surfaced as `None`. -/
theorem c7_amended_witness : create_single_reel [] [] none 90 = none :=
  (c7_amended [] [] none 90).1 "No valid text content found" rfl

/-- C8 counterexample: in src/reel_creator.py an empty title and body do NOT
raise — the combined text `title + ". " + content` always contains the
period, so the emptiness check never fires and the item resolves to the text
`"."` with a 30 s duration instead of an error. -/
theorem c8_counterexample :
    create_reel_body [] [] none = Except.ok ⟨['.'], 30⟩ ∧
    (∀ e, create_reel_body [] [] none ≠ Except.error e) := by
  have h30 : target_duration_estimated none 1 = 30 := by
    unfold target_duration_estimated
    rw [min_eq_left (by norm_num), max_eq_left (by norm_num)]
  have h : create_reel_body [] [] none
      = Except.ok ⟨['.'], target_duration_estimated none 1⟩ := rfl
  rw [h30] at h
  refine ⟨h, fun e he => ?_⟩
  rw [h] at he
  exact Except.noConfusion he

/-- C8 amended: src/reelCreator.py does reject empty combined text with the
error `"No valid text content found"` (its check also catches the lone-period
sentinel), and whenever its composition body succeeds without measured audio
under a positive `max_duration` the resolved duration is strictly positive.
src/reel_creator.py never raises on empty content — its check only compares
against the empty string, which the combined text never is — but its no-audio
duration is clamped to at least 30 s, so no zero-length artifact arises
either. -/
theorem c8_amended :
    (∀ audioDur : Option ℚ, ∀ maxDur : ℚ,
        create_single_reel_body [] [] audioDur maxDur
          = Except.error "No valid text content found") ∧
    (∀ title content : List Char, ∀ maxDur : ℚ, ∀ p : ReelPlan, 0 < maxDur →
        create_single_reel_body title content none maxDur = Except.ok p →
        0 < p.targetDuration) ∧
    (∀ title content : List Char, ∀ q : ReelPlan,
        create_reel_body title content none = Except.ok q →
        30 ≤ q.targetDuration) := by
  refine ⟨fun a m => rfl, ?_, ?_⟩
  · intro t c m p hm hok
    have key : ∀ wc : ℕ, 0 < wc → 0 < target_duration_kokoro none wc m := by
      intro wc hwc
      unfold target_duration_kokoro
      apply lt_min
      · apply div_pos
        · exact_mod_cast hwc
        · norm_num
      · exact hm
    unfold create_single_reel_body at hok
    by_cases hif : pyStrip (t ++ ('.' :: ' ' :: c)) = []
        ∨ pyStrip (t ++ ('.' :: ' ' :: c)) = ['.']
    · rw [if_pos hif] at hok
      exact absurd hok (by simp)
    · rw [if_neg hif] at hok
      rw [Except.ok.injEq] at hok
      subst hok
      push_neg at hif
      exact key _ (List.length_pos.mpr (splitWords_ne_nil_of_strip _ hif.1))
  · intro t c q hok
    unfold create_reel_body at hok
    by_cases hif : pyStrip (t ++ ('.' :: ' ' :: c)) = []
    · rw [if_pos hif] at hok
      exact absurd hok (by simp)
    · rw [if_neg hif] at hok
      rw [Except.ok.injEq] at hok
      subst hok
      exact le_max_left 30 _

/-- Witness for C8 amended: the two-letter title `"hi"` with empty body
composes successfully and resolves to a strictly positive duration
(`min(1 / 2.5, 90) = 0.4` s). -/
theorem c8_amended_witness :
    0 < (ReelPlan.mk ['h', 'i', '.'] (target_duration_kokoro none 1 90)).targetDuration :=
  c8_amended.2.1 ['h', 'i'] [] 90 ⟨['h', 'i', '.'], target_duration_kokoro none 1 90⟩
    (by norm_num) rfl

/-- C4: the chunker of `create_text_clips` / `create_text_clips_pil` splits on
whitespace only (every produced word is nonempty and whitespace-free), yields
chunks of exactly 8 words each except the final chunk (1..8 words),
reassembling all chunks' words reproduces the original word sequence exactly
and in order, and empty input yields an empty chunk sequence rather than an
error. -/
theorem c4_chunking (text : List Char) :
    (create_text_clips_chunkWords text).flatten = splitWords text ∧
    (∀ i, i + 1 < (create_text_clips_chunkWords text).length →
        ((create_text_clips_chunkWords text).getD i []).length = 8) ∧
    (∀ c ∈ create_text_clips_chunkWords text, 1 ≤ c.length ∧ c.length ≤ 8) ∧
    (∀ w ∈ splitWords text, w ≠ [] ∧ ∀ ch ∈ w, isSpace ch = false) ∧
    (splitWords text = [] → create_text_clips_chunkWords text = []) ∧
    splitWords [] = [] := by
  unfold create_text_clips_chunkWords
  rw [show (8 : ℕ) = 7 + 1 from rfl]
  refine ⟨chunksOf_join 7 (splitWords text), chunksOf_getD_length 7 (splitWords text),
    chunksOf_mem_length 7 (splitWords text), splitWords_words text, ?_, rfl⟩
  intro hnil
  rw [hnil, chunksOf_nil]

/-- Witness for C4 at the concrete all-whitespace input `" "`: it splits to
zero words, so the chunk sequence is empty rather than an error. -/
theorem c4_chunking_witness : create_text_clips_chunkWords [' '] = [] :=
  (c4_chunking [' ']).2.2.2.2.1 (by decide)

/-- C3: for every nonempty fragment schedule over a positive total duration,
every fragment's duration is `totalDuration / fragmentCount`, the first
fragment starts at 0, each fragment's end equals the next fragment's start,
and the last fragment's end equals the total duration (contiguous,
non-overlapping, full coverage). -/
theorem c3_fragments (text : List Char) (D : ℚ) (_hD : 0 < D)
    (hw : splitWords text ≠ []) :
    0 < (textClipTimes text D).length ∧
    (∀ i, i < (textClipTimes text D).length →
        ((textClipTimes text D).getD i (0, 0)).2
          = D / ((textClipTimes text D).length : ℚ)) ∧
    ((textClipTimes text D).getD 0 (0, 0)).1 = 0 ∧
    (∀ i, i + 1 < (textClipTimes text D).length →
        ((textClipTimes text D).getD i (0, 0)).1 + ((textClipTimes text D).getD i (0, 0)).2
          = ((textClipTimes text D).getD (i + 1) (0, 0)).1) ∧
    ((textClipTimes text D).getD ((textClipTimes text D).length - 1) (0, 0)).1
        + ((textClipTimes text D).getD ((textClipTimes text D).length - 1) (0, 0)).2
      = D := by
  have hn : 0 < (create_text_clips_chunks text).length := by
    unfold create_text_clips_chunks create_text_clips_chunkWords
    rcases hsw : splitWords text with _ | ⟨w, ws⟩
    · exact absurd hsw hw
    · rw [show (8 : ℕ) = 7 + 1 from rfl, chunksOf_cons]
      simp
  have hlen : (textClipTimes text D).length = (create_text_clips_chunks text).length := by
    unfold textClipTimes
    rw [List.length_map, List.length_range]
  have hget : ∀ i, i < (create_text_clips_chunks text).length →
      (textClipTimes text D).getD i (0, 0)
        = ((i : ℚ) * (D / ((create_text_clips_chunks text).length : ℚ)),
            D / ((create_text_clips_chunks text).length : ℚ)) := by
    intro i hi
    unfold textClipTimes
    rw [List.getD_eq_getElem _ _ (by rw [List.length_map, List.length_range]; exact hi)]
    rw [List.getElem_map, List.getElem_range]
  have hcast : ((create_text_clips_chunks text).length : ℚ) ≠ 0 :=
    Nat.cast_ne_zero.mpr (by omega)
  refine ⟨by rw [hlen]; exact hn, ?_, ?_, ?_, ?_⟩
  · intro i hi
    rw [hlen] at hi ⊢
    rw [hget i hi]
  · rw [hget 0 hn]
    simp
  · intro i hi
    rw [hlen] at hi
    rw [hget i (by omega), hget (i + 1) hi]
    push_cast
    ring
  · rw [hlen]
    rw [hget ((create_text_clips_chunks text).length - 1) (by omega)]
    have h1 : (((create_text_clips_chunks text).length - 1 : ℕ) : ℚ)
        = ((create_text_clips_chunks text).length : ℚ) - 1 := by
      push_cast [Nat.cast_sub (by omega : 1 ≤ (create_text_clips_chunks text).length)]
      ring
    rw [h1]
    field_simp
    ring

/-- Witness for C3 at a one-chunk text and a 30 s duration: the single
fragment starts at 0. -/
theorem c3_fragments_witness :
    ((textClipTimes ['h', 'i'] 30).getD 0 (0, 0)).1 = 0 :=
  (c3_fragments ['h', 'i'] 30 (by norm_num) (by decide)).2.2.1

/-- C1 counterexample: two processed clips of 21.5 s each with a 1.5 s
transition — `concatenate_videoclips` places clip 1 at `layerStart = 21.5`,
not at the claimed `end of clip 0 minus the transition duration = 20`, and the
realized overlap between the neighboring clips is 0, not the configured 1.5 s. -/
theorem c1_counterexample :
    layerStarts [43/2, 43/2] = [0, 43/2] ∧
    (0 : ℚ) + 43/2 - 3/2 ≠ 43/2 ∧
    consecOverlap [43/2, 43/2] 0 = 0 ∧ ((3 : ℚ)/2 ≠ 0) := by
  refine ⟨?_, by norm_num, consecOverlap_eq_zero _ _, by norm_num⟩
  unfold layerStarts
  simp [List.range_succ]

/-- C1 amended: the background clips are laid out strictly sequentially —
clip `i+1`'s `layerStart` equals clip `i`'s `layerStart` plus clip `i`'s
duration, with no transition subtraction — so every pair of neighboring clips
overlaps by exactly 0 seconds rather than the transition duration, and the
visible windows cover `[0, min(totalDuration, Σ clip durations))`, which is
all of `[0, totalDuration)` exactly when the processed clips' total length
reaches the requested duration. -/
theorem c1_amended (durs : List ℚ) (D : ℚ) (hpos : ∀ d ∈ durs, 0 ≤ d) :
    (∀ i, i + 1 < durs.length →
        (layerStarts durs).getD (i + 1) 0
          = (layerStarts durs).getD i 0 + durs.getD i 0) ∧
    (∀ i, consecOverlap durs i = 0) ∧
    (∀ t : ℚ, 0 ≤ t → t < min D durs.sum →
        ∃ i, i < durs.length ∧ coveredBy durs i t) := by
  refine ⟨?_, fun i => consecOverlap_eq_zero durs i, ?_⟩
  · intro i hi
    rw [layerStarts_getD durs (i + 1) hi, layerStarts_getD durs i (by omega),
      List.sum_take_succ _ _ (by omega : i < durs.length),
      List.getD_eq_getElem _ _ (by omega : i < durs.length)]
  · intro t h0 ht
    exact coverage_aux durs hpos t h0 (lt_of_lt_of_le ht (min_le_right _ _))

/-- Witness for C1 amended: with clip durations 2 s and 3 s and a requested
duration of 4 s, the instant 2.5 s is covered by some clip. -/
theorem c1_amended_witness :
    ∃ i, i < ([(2 : ℚ), 3]).length ∧ coveredBy [(2 : ℚ), 3] i (5/2) :=
  (c1_amended [(2 : ℚ), 3] 4 (by norm_num)).2.2 (5/2) (by norm_num)
    (by norm_num [List.sum_cons, List.sum_nil, min_def])

/-- C6: the composition entry points are deterministic given the random
draws — the placements of `create_background_video` (selected source indices,
segment trim windows) depend only on the inputs and on the finitely many RNG
draws it consumes, so two runs with identical inputs whose seeded generators
agree on that prefix produce identical placements; likewise the background
window chosen by `create_single_reel` depends only on its single uniform
draw. -/
theorem c6_determinism (r1 r2 : RandomStream) (videoDurs : List ℚ)
    (duration transition : ℚ) (nArg : Option ℕ) (bgDur targetDur : ℚ)
    (hs : ∀ i < bg_num_clips videoDurs.length duration nArg,
        r1.sampleDraw i = r2.sampleDraw i)
    (hu : ∀ i < bg_num_clips videoDurs.length duration nArg,
        r1.uniformDraw i = r2.uniformDraw i) :
    create_background_video_placements r1 videoDurs duration transition nArg
      = create_background_video_placements r2 videoDurs duration transition nArg ∧
    (r1.uniformDraw 0 = r2.uniformDraw 0 →
      reel_bg_window (r1.uniformDraw 0) bgDur targetDur
        = reel_bg_window (r2.uniformDraw 0) bgDur targetDur) := by
  constructor
  · unfold create_background_video_placements
    apply List.map_congr_left
    intro i hi
    have hi' : i < bg_num_clips videoDurs.length duration nArg := List.mem_range.mp hi
    dsimp only
    rw [hs i hi', hu i hi']
  · intro h
    rw [h]

/-- A concrete draw stream used to witness the determinism theorem. -/
def rngA : RandomStream :=
  ⟨fun i => i, fun _ => 1/2⟩

/-- A second draw stream agreeing with `rngA` only on the two consumed
draws. -/
def rngB : RandomStream :=
  ⟨fun i => if i < 2 then i else 42, fun i => if i < 2 then 1/2 else 0⟩

/-- Witness for C6: two sources of 5 s and 7 s, a 20 s request with 1.5 s
transitions, and two different streams that agree on the consumed prefix
yield identical placements. -/
theorem c6_determinism_witness :
    create_background_video_placements rngA [5, 7] 20 (3/2) none
      = create_background_video_placements rngB [5, 7] 20 (3/2) none :=
  (c6_determinism rngA rngB [5, 7] 20 (3/2) none 0 0
    (by intro i hi
        have h2 : i < 2 := by
          have hbg : bg_num_clips ([(5 : ℚ), 7]).length 20 none = 2 := by
            unfold bg_num_clips
            norm_num
          omega
        simp [rngA, rngB, h2])
    (by intro i hi
        have h2 : i < 2 := by
          have hbg : bg_num_clips ([(5 : ℚ), 7]).length 20 none = 2 := by
            unfold bg_num_clips
            norm_num
          omega
        simp [rngA, rngB, h2])).1

/-- C10: whenever the combined title-plus-body text exceeds the word limit
(200 words in src/reelCreator.py, 150 in src/reel_creator.py), the composition
body silently replaces the text by the space-join of the first limit-many
words with `'...'` appended — so the text fed to chunking and narration is
built from only a prefix of the original word sequence. -/
theorem c10_truncation :
    (∀ title content : List Char, ∀ audioDur : Option ℚ, ∀ maxDur : ℚ, ∀ p : ReelPlan,
        200 < (splitWords (pyStrip (title ++ ('.' :: ' ' :: content)))).length →
        create_single_reel_body title content audioDur maxDur = Except.ok p →
        p.fullText
            = joinWords ((splitWords (pyStrip (title ++ ('.' :: ' ' :: content)))).take 200)
              ++ ['.', '.', '.'] ∧
          (splitWords (pyStrip (title ++ ('.' :: ' ' :: content)))).take 200
            <+: splitWords (pyStrip (title ++ ('.' :: ' ' :: content)))) ∧
    (∀ title content : List Char, ∀ audioDur : Option ℚ, ∀ q : ReelPlan,
        150 < (splitWords (pyClean (pyStrip (title ++ ('.' :: ' ' :: content))))).length →
        create_reel_body title content audioDur = Except.ok q →
        q.fullText
            = joinWords
                ((splitWords (pyClean (pyStrip (title ++ ('.' :: ' ' :: content))))).take 150)
              ++ ['.', '.', '.'] ∧
          (splitWords (pyClean (pyStrip (title ++ ('.' :: ' ' :: content))))).take 150
            <+: splitWords (pyClean (pyStrip (title ++ ('.' :: ' ' :: content))))) := by
  constructor
  · intro t c a m p hlong hok
    unfold create_single_reel_body at hok
    by_cases hif : pyStrip (t ++ ('.' :: ' ' :: c)) = []
        ∨ pyStrip (t ++ ('.' :: ' ' :: c)) = ['.']
    · rw [if_pos hif] at hok
      exact absurd hok (by simp)
    · rw [if_neg hif] at hok
      rw [Except.ok.injEq] at hok
      subst hok
      refine ⟨?_, ⟨_, List.take_append_drop 200 _⟩⟩
      show (if 200 < _ then _ else _) = _
      rw [if_pos hlong]
  · intro t c a q hlong hok
    unfold create_reel_body at hok
    by_cases hif : pyStrip (t ++ ('.' :: ' ' :: c)) = []
    · rw [if_pos hif] at hok
      exact absurd hok (by simp)
    · rw [if_neg hif] at hok
      rw [Except.ok.injEq] at hok
      subst hok
      refine ⟨?_, ⟨_, List.take_append_drop 150 _⟩⟩
      show (if 150 < _ then _ else _) = _
      rw [if_pos hlong]

/-- A 201-word text (201 copies of the single-letter word `a`) used to
witness the truncation theorem. -/
def longText : List Char :=
  joinWords (List.replicate 201 ['a'])

set_option maxRecDepth 8000 in
/-- Witness for C10: with an empty title and the 201-word body, the combined
text has 202 words, so the first 200 words — a proper prefix of the original
word sequence — are what survives truncation. -/
theorem c10_truncation_witness :
    (splitWords (pyStrip (([] : List Char) ++ ('.' :: ' ' :: longText)))).take 200
      <+: splitWords (pyStrip (([] : List Char) ++ ('.' :: ' ' :: longText))) :=
  (c10_truncation.1 [] longText none 90
    ⟨if 200 < (splitWords (pyStrip (([] : List Char) ++ ('.' :: ' ' :: longText)))).length then
        joinWords
          ((splitWords (pyStrip (([] : List Char) ++ ('.' :: ' ' :: longText)))).take 200)
          ++ ['.', '.', '.']
      else pyStrip (([] : List Char) ++ ('.' :: ' ' :: longText)),
      target_duration_kokoro none
        (splitWords (pyStrip (([] : List Char) ++ ('.' :: ' ' :: longText)))).length 90⟩
    (by decide) rfl).2

end ReelsAutomation
